import Mathlib

/-!
Verification of the JetStream clustering core (`server/jetstream_cluster.go`).

The Go code is shallowly embedded: byte buffers become `List Nat`, Go maps become
association lists, fallible operations return `Option`, and collaborator objects
(raft node, log store, transport) are modelled by explicit parameters following
the contracts stated for them.  Machine integers are `Nat`/`Int` with explicit
`% 2^w` where Go's fixed-width arithmetic can truncate.
-/

namespace NatsJSC

/-- Byte buffers; the Go code uses `[]byte`.  Entries are the byte values. -/
abbrev Bytes := List Nat

/-- Read `k` little-endian bytes from the front of a buffer, as
`binary.LittleEndian.Uint16/32/64` do.  Reading past the end contributes 0;
the decoder only reads within bounds it has already checked. -/
def leNat : Nat → Bytes → Nat
  | 0, _ => 0
  | _ + 1, [] => 0
  | k + 1, b :: bs => b + 256 * leNat k bs

/-- Write `n` as `k` little-endian bytes, truncating to `n % 256^k` exactly as
`binary.LittleEndian.PutUint16/32/64` truncate their argument. -/
def putLE : Nat → Nat → Bytes
  | 0, _ => []
  | k + 1, n => n % 256 :: putLE k (n / 256)

/-- Go's `int64(u)` reinterpretation of a `uint64` bit pattern. -/
def int64OfUint64 (n : Nat) : Int :=
  if n < 2 ^ 63 then (n : Int) else (n : Int) - 2 ^ 64

/-- Go's `uint64(i)` reinterpretation of an `int64`. -/
def uint64OfInt64 (i : Int) : Nat := (i % (2 ^ 64 : Int)).toNat

@[simp] theorem putLE_length (k n : Nat) : (putLE k n).length = k := by
  induction k generalizing n with
  | zero => rfl
  | succ k ih => simp [putLE, ih]

theorem leNat_putLE_append (k n : Nat) (r : Bytes) :
    leNat k (putLE k n ++ r) = n % 256 ^ k := by
  induction k generalizing n with
  | zero => simp [putLE, leNat, Nat.mod_one]
  | succ k ih =>
      simp only [putLE, List.cons_append, leNat, List.append_eq]
      rw [ih, pow_succ, mul_comm (256 ^ k) 256, Nat.mod_mul]

theorem drop_len_append (a r : Bytes) (n : Nat) :
    (a ++ r).drop (a.length + n) = r.drop n := by
  induction a with
  | nil => simp
  | cons x xs ih => simp [Nat.succ_add, ih]

theorem take_len_append (a r : Bytes) : (a ++ r).take a.length = a := by
  induction a with
  | nil => simp
  | cons x xs ih => simp [ih]

/-- The decoded form of a replicated `STREAM_MSG` entry: the tuple
`(subject, reply, hdr, msg, lseq, ts)` returned by `decodeStreamMsg`. -/
structure StreamMsgParts where
  subject : Bytes
  reply : Bytes
  hdr : Bytes
  msg : Bytes
  lseq : Nat
  ts : Int
deriving DecidableEq

/-- The `streamMsgOp` opcode tag (4). -/
def streamMsgOp : Nat := 4

/-- Model of `decodeStreamMsg`: parses the binary STREAM_MSG framing that
follows the opcode byte — `u64 lseq, u64 ts, u16 sl, subject, u16 rl, reply,
u16 hl, hdr, u32 ml, msg`.  The Go code re-slices `buf` after each field; here
each field is read at its absolute offset, which is the same computation.
`none` models the `errBadStreamMsg` return. -/
def decodeStreamMsg (buf : Bytes) : Option StreamMsgParts :=
  if buf.length < 26 then none else
  let lseq := leNat 8 buf
  let ts := int64OfUint64 (leNat 8 (buf.drop 8))
  let sl := leNat 2 (buf.drop 16)
  if buf.length - 18 < sl then none else
  let subject := (buf.drop 18).take sl
  if buf.length - (18 + sl) < 2 then none else
  let rl := leNat 2 (buf.drop (18 + sl))
  if buf.length - (20 + sl) < rl then none else
  let reply := (buf.drop (20 + sl)).take rl
  if buf.length - (20 + sl + rl) < 2 then none else
  let hl := leNat 2 (buf.drop (20 + sl + rl))
  if buf.length - (22 + sl + rl) < hl then none else
  let hdr := (buf.drop (22 + sl + rl)).take hl
  if buf.length - (22 + sl + rl + hl) < 4 then none else
  let ml := leNat 4 (buf.drop (22 + sl + rl + hl))
  if buf.length - (26 + sl + rl + hl) < ml then none else
  some ⟨subject, reply, hdr, (buf.drop (26 + sl + rl + hl)).take ml, lseq, ts⟩

/-- Model of `encodeStreamMsg`: opcode byte, then `u64 lseq`, `u64 ts`, the
three `u16`-length-prefixed sections and the `u32`-length-prefixed body. -/
def encodeStreamMsg (subject reply hdr msg : Bytes) (lseq : Nat) (ts : Int) : Bytes :=
  streamMsgOp ::
    (putLE 8 lseq ++ (putLE 8 (uint64OfInt64 ts) ++
      (putLE 2 subject.length ++ (subject ++
        (putLE 2 reply.length ++ (reply ++
          (putLE 2 hdr.length ++ (hdr ++
            (putLE 4 msg.length ++ msg)))))))))

/-- Declared subject length of a frame: the `u16` at offset 16. -/
def streamMsgSL (buf : Bytes) : Nat := leNat 2 (buf.drop 16)

/-- Declared reply length: the `u16` following the subject section. -/
def streamMsgRL (buf : Bytes) : Nat := leNat 2 (buf.drop (18 + streamMsgSL buf))

/-- Declared header length: the `u16` following the reply section. -/
def streamMsgHL (buf : Bytes) : Nat :=
  leNat 2 (buf.drop (20 + streamMsgSL buf + streamMsgRL buf))

/-- Declared message length: the `u32` following the header section. -/
def streamMsgML (buf : Bytes) : Nat :=
  leNat 4 (buf.drop (22 + streamMsgSL buf + streamMsgRL buf + streamMsgHL buf))

theorem drop_exact (a r : Bytes) (k : Nat) (h : a.length = k) : (a ++ r).drop k = r := by
  subst h
  simp

theorem drop_exact_add (a r : Bytes) (k n : Nat) (h : a.length = k) :
    (a ++ r).drop (k + n) = r.drop n := by
  subst h
  exact drop_len_append a r n

theorem int64_uint64_roundtrip (ts : Int) (h1 : -2 ^ 63 ≤ ts) (h2 : ts < 2 ^ 63) :
    int64OfUint64 (uint64OfInt64 ts) = ts := by
  simp only [uint64OfInt64, int64OfUint64]
  split_ifs with h <;> omega

theorem uint64OfInt64_lt (ts : Int) : uint64OfInt64 ts < 2 ^ 64 := by
  simp only [uint64OfInt64]
  omega

/-- Decoding a buffer laid out exactly as `encodeStreamMsg` lays out the bytes
after the opcode recovers every field. -/
theorem decodeStreamMsg_frame (subject reply hdr msg : Bytes) (lseq tsN : Nat)
    (hs : subject.length ≤ 65535) (hr : reply.length ≤ 65535)
    (hh : hdr.length ≤ 65535) (hm : msg.length < 2 ^ 32) (hq : lseq < 2 ^ 64)
    (htn : tsN < 2 ^ 64) :
    decodeStreamMsg
      (putLE 8 lseq ++ (putLE 8 tsN ++ (putLE 2 subject.length ++ (subject ++
        (putLE 2 reply.length ++ (reply ++ (putLE 2 hdr.length ++ (hdr ++
          (putLE 4 msg.length ++ msg))))))))) =
      some ⟨subject, reply, hdr, msg, lseq, int64OfUint64 tsN⟩ := by
  have h2_16 : (256 : Nat) ^ 2 = 65536 := by norm_num
  have h4_32 : (256 : Nat) ^ 4 = 2 ^ 32 := by norm_num
  have h8_64 : (256 : Nat) ^ 8 = 2 ^ 64 := by norm_num
  set T9 : Bytes := putLE 4 msg.length ++ msg with hT9
  set T8 : Bytes := hdr ++ T9 with hT8
  set T7 : Bytes := putLE 2 hdr.length ++ T8 with hT7
  set T6 : Bytes := reply ++ T7 with hT6
  set T5 : Bytes := putLE 2 reply.length ++ T6 with hT5
  set T4 : Bytes := subject ++ T5 with hT4
  set T3 : Bytes := putLE 2 subject.length ++ T4 with hT3
  set T2 : Bytes := putLE 8 tsN ++ T3 with hT2
  set E : Bytes := putLE 8 lseq ++ T2 with hE
  have hlen : E.length =
      26 + subject.length + reply.length + hdr.length + msg.length := by
    rw [hE, hT2, hT3, hT4, hT5, hT6, hT7, hT8, hT9]
    simp [putLE_length]
    omega
  have d8 : E.drop 8 = T2 := by
    rw [hE]; exact drop_exact _ _ _ (putLE_length _ _)
  have d16 : E.drop 16 = T3 := by
    rw [hE, show (16 : Nat) = 8 + 8 from rfl,
      drop_exact_add _ _ _ _ (putLE_length _ _), hT2]
    exact drop_exact _ _ _ (putLE_length _ _)
  have d18 : E.drop 18 = T4 := by
    rw [hE, show (18 : Nat) = 8 + 10 from rfl,
      drop_exact_add _ _ _ _ (putLE_length _ _), hT2,
      show (10 : Nat) = 8 + 2 from rfl,
      drop_exact_add _ _ _ _ (putLE_length _ _), hT3]
    exact drop_exact _ _ _ (putLE_length _ _)
  have d18s : E.drop (18 + subject.length) = T5 := by
    rw [show 18 + subject.length = 8 + (8 + (2 + subject.length)) from by omega,
      hE, drop_exact_add _ _ _ _ (putLE_length _ _), hT2,
      drop_exact_add _ _ _ _ (putLE_length _ _), hT3,
      drop_exact_add _ _ _ _ (putLE_length _ _), hT4,
      show subject.length = subject.length + 0 from rfl,
      drop_exact_add _ _ _ _ rfl, List.drop_zero]
  have d20s : E.drop (20 + subject.length) = T6 := by
    rw [show 20 + subject.length = 8 + (8 + (2 + (subject.length + 2))) from by omega,
      hE, drop_exact_add _ _ _ _ (putLE_length _ _), hT2,
      drop_exact_add _ _ _ _ (putLE_length _ _), hT3,
      drop_exact_add _ _ _ _ (putLE_length _ _), hT4,
      drop_exact_add _ _ _ _ rfl, hT5,
      drop_exact _ _ _ (putLE_length _ _)]
  have d20sr : E.drop (20 + subject.length + reply.length) = T7 := by
    rw [show 20 + subject.length + reply.length =
        8 + (8 + (2 + (subject.length + (2 + (reply.length + 0))))) from by omega,
      hE, drop_exact_add _ _ _ _ (putLE_length _ _), hT2,
      drop_exact_add _ _ _ _ (putLE_length _ _), hT3,
      drop_exact_add _ _ _ _ (putLE_length _ _), hT4,
      drop_exact_add _ _ _ _ rfl, hT5,
      drop_exact_add _ _ _ _ (putLE_length _ _), hT6,
      drop_exact_add _ _ _ _ rfl, List.drop_zero]
  have d22sr : E.drop (22 + subject.length + reply.length) = T8 := by
    rw [show 22 + subject.length + reply.length =
        8 + (8 + (2 + (subject.length + (2 + (reply.length + 2))))) from by omega,
      hE, drop_exact_add _ _ _ _ (putLE_length _ _), hT2,
      drop_exact_add _ _ _ _ (putLE_length _ _), hT3,
      drop_exact_add _ _ _ _ (putLE_length _ _), hT4,
      drop_exact_add _ _ _ _ rfl, hT5,
      drop_exact_add _ _ _ _ (putLE_length _ _), hT6,
      drop_exact_add _ _ _ _ rfl, hT7,
      drop_exact _ _ _ (putLE_length _ _)]
  have d22srh : E.drop (22 + subject.length + reply.length + hdr.length) = T9 := by
    rw [show 22 + subject.length + reply.length + hdr.length =
        8 + (8 + (2 + (subject.length + (2 + (reply.length +
          (2 + (hdr.length + 0))))))) from by omega,
      hE, drop_exact_add _ _ _ _ (putLE_length _ _), hT2,
      drop_exact_add _ _ _ _ (putLE_length _ _), hT3,
      drop_exact_add _ _ _ _ (putLE_length _ _), hT4,
      drop_exact_add _ _ _ _ rfl, hT5,
      drop_exact_add _ _ _ _ (putLE_length _ _), hT6,
      drop_exact_add _ _ _ _ rfl, hT7,
      drop_exact_add _ _ _ _ (putLE_length _ _), hT8,
      drop_exact_add _ _ _ _ rfl, List.drop_zero]
  have d26srh : E.drop (26 + subject.length + reply.length + hdr.length) = msg := by
    rw [show 26 + subject.length + reply.length + hdr.length =
        8 + (8 + (2 + (subject.length + (2 + (reply.length +
          (2 + (hdr.length + 4))))))) from by omega,
      hE, drop_exact_add _ _ _ _ (putLE_length _ _), hT2,
      drop_exact_add _ _ _ _ (putLE_length _ _), hT3,
      drop_exact_add _ _ _ _ (putLE_length _ _), hT4,
      drop_exact_add _ _ _ _ rfl, hT5,
      drop_exact_add _ _ _ _ (putLE_length _ _), hT6,
      drop_exact_add _ _ _ _ rfl, hT7,
      drop_exact_add _ _ _ _ (putLE_length _ _), hT8,
      drop_exact_add _ _ _ _ rfl, hT9,
      drop_exact _ _ _ (putLE_length _ _)]
  have vlseq : leNat 8 E = lseq := by
    rw [hE, leNat_putLE_append, h8_64, Nat.mod_eq_of_lt hq]
  have vts : leNat 8 (E.drop 8) = tsN := by
    rw [d8, hT2, leNat_putLE_append, h8_64, Nat.mod_eq_of_lt htn]
  have vsl : leNat 2 (E.drop 16) = subject.length := by
    rw [d16, hT3, leNat_putLE_append, h2_16, Nat.mod_eq_of_lt (by omega)]
  have vrl : leNat 2 (E.drop (18 + subject.length)) = reply.length := by
    rw [d18s, hT5, leNat_putLE_append, h2_16, Nat.mod_eq_of_lt (by omega)]
  have vhl : leNat 2 (E.drop (20 + subject.length + reply.length)) = hdr.length := by
    rw [d20sr, hT7, leNat_putLE_append, h2_16, Nat.mod_eq_of_lt (by omega)]
  have vml : leNat 4 (E.drop (22 + subject.length + reply.length + hdr.length)) =
      msg.length := by
    rw [d22srh, hT9, leNat_putLE_append, h4_32, Nat.mod_eq_of_lt (by omega)]
  have vsub : (E.drop 18).take subject.length = subject := by
    rw [d18, hT4]; exact take_len_append _ _
  have vrep : (E.drop (20 + subject.length)).take reply.length = reply := by
    rw [d20s, hT6]; exact take_len_append _ _
  have vhdr : (E.drop (22 + subject.length + reply.length)).take hdr.length = hdr := by
    rw [d22sr, hT8]; exact take_len_append _ _
  have vmsg : (E.drop (26 + subject.length + reply.length + hdr.length)).take
      msg.length = msg := by
    rw [d26srh]; exact List.take_length msg
  simp only [decodeStreamMsg, vlseq, vts, vsl, vrl, vhl, vml, vsub, vrep, vhdr, vmsg]
  split_ifs with g1 g2 g3 g4 g5 g6 g7 g8 <;> first | rfl | (exfalso; omega)

/-- Claim C5, counterexample: an all-zero 25-byte buffer declares every variable
section empty and is not shorter than the claimed 25-byte minimum, yet
`decodeStreamMsg` rejects it with `errBadStreamMsg` — the code requires at least
26 bytes (`len(buf) < 26`), so no 25-byte frame can decode. -/
theorem C5_counterexample_25_bytes :
    decodeStreamMsg (List.replicate 25 0) = none ∧
    ¬((List.replicate 25 (0 : Nat)).length < 25) ∧
    streamMsgSL (List.replicate 25 0) = 0 ∧
    streamMsgRL (List.replicate 25 0) = 0 ∧
    streamMsgHL (List.replicate 25 0) = 0 ∧
    streamMsgML (List.replicate 25 0) = 0 ∧
    ¬((List.replicate 25 (0 : Nat)).length < 25 + 0 + 0 + 0 + 0) := by decide

/-- Claim C5 (amended): `decodeStreamMsg` returns `errBadStreamMsg` exactly when
the buffer is shorter than the 26-byte minimum frame or its declared section
lengths exceed the remaining bytes (`26 + sl + rl + hl + ml > len`); a
well-formed minimal frame of exactly 26 bytes (all variable sections empty)
decodes successfully. -/
theorem C5_decode_err_characterization :
    (∀ buf : Bytes,
      decodeStreamMsg buf = none ↔
        buf.length < 26 ∨
          buf.length <
            26 + streamMsgSL buf + streamMsgRL buf + streamMsgHL buf +
              streamMsgML buf) ∧
    decodeStreamMsg (List.replicate 26 0) = some ⟨[], [], [], [], 0, 0⟩ := by
  refine ⟨fun buf => ?_, by decide⟩
  simp only [decodeStreamMsg, streamMsgSL, streamMsgRL, streamMsgHL, streamMsgML]
  split_ifs with h1 h2 h3 h4 h5 h6 h7 h8 <;> simp <;> omega

/-- Claim C6: for subject, reply and hdr of at most 65535 bytes each and msg
shorter than 2^32 bytes, decoding the output of `encodeStreamMsg` after its
leading opcode byte returns exactly the same `(subject, reply, hdr, msg, lseq, ts)`
with no error.  `lseq` ranges over uint64 and `ts` over int64, as in Go. -/
theorem C6_encode_decode_roundtrip (subject reply hdr msg : Bytes) (lseq : Nat)
    (ts : Int) (hs : subject.length ≤ 65535) (hr : reply.length ≤ 65535)
    (hh : hdr.length ≤ 65535) (hm : msg.length < 2 ^ 32) (hq : lseq < 2 ^ 64)
    (ht1 : -2 ^ 63 ≤ ts) (ht2 : ts < 2 ^ 63) :
    decodeStreamMsg (encodeStreamMsg subject reply hdr msg lseq ts).tail =
      some ⟨subject, reply, hdr, msg, lseq, ts⟩ := by
  unfold encodeStreamMsg
  rw [List.tail_cons,
    decodeStreamMsg_frame subject reply hdr msg lseq (uint64OfInt64 ts) hs hr hh hm
      hq (uint64OfInt64_lt ts),
    int64_uint64_roundtrip ts ht1 ht2]

/-- Witness for C6 at a concrete input. -/
theorem C6_encode_decode_roundtrip_witness :
    decodeStreamMsg (encodeStreamMsg [102] [] [104] [1, 2] 7 (-5)).tail =
      some ⟨[102], [], [104], [1, 2], 7, -5⟩ :=
  C6_encode_decode_roundtrip [102] [] [104] [1, 2] 7 (-5) (by norm_num) (by norm_num)
    (by norm_num) (by norm_num) (by norm_num) (by norm_num) (by norm_num)

/-! ## Stream snapshot reconciliation (follower side of catch-up) -/

/-- The fields of the collaborator `StreamState` that the snapshot path reads:
first and last sequence plus the tombstone list `Deleted`. -/
structure StreamStateM where
  firstSeq : Nat
  lastSeq : Nat
  deleted : List Nat
deriving DecidableEq

/-- Modelled from the spec: the log-store collaborator (§2 "Log Store", §6) —
an append-only message store over sequence numbers.  `State()` reports the
first/last sequence, `Compact(seq)` drops messages below `seq` and raises
`FirstSeq` to `seq`, `RemoveMsg(seq)` erases a single message.  The store
implementation itself is not part of the embedded source file. -/
structure StoreM where
  msgs : List Nat
  firstSeq : Nat
  lastSeq : Nat
deriving DecidableEq

def StoreM.state (st : StoreM) : StreamStateM := ⟨st.firstSeq, st.lastSeq, []⟩

def StoreM.compact (st : StoreM) (s : Nat) : StoreM :=
  ⟨st.msgs.filter (fun q => decide (s ≤ q)), s, st.lastSeq⟩

def StoreM.removeMsg (st : StoreM) (d : Nat) : StoreM :=
  ⟨st.msgs.filter (fun q => q != d), st.firstSeq, st.lastSeq⟩

/-- Model of `processSnapshotDeletes`: compact up to the snapshot's `FirstSeq`
when it is ahead of ours, refresh the state, then remove every tombstoned
sequence that does not exceed the refreshed local `LastSeq`. -/
def processSnapshotDeletes (store : StoreM) (snap : StreamStateM) : StoreM :=
  let store1 := if snap.firstSeq > store.firstSeq then store.compact snap.firstSeq else store
  let ls := store1.lastSeq
  snap.deleted.foldl (fun st d => if d ≤ ls then st.removeMsg d else st) store1

/-- The catch-up request `{first_seq, last_seq}`. -/
structure streamSyncRequest where
  firstSeq : Nat
  lastSeq : Nat
deriving DecidableEq

/-- Model of `calculateSyncRequest`: no request when already caught up,
otherwise ask for `(localLast+1, snap.LastSeq)`. -/
def calculateSyncRequest (state snap : StreamStateM) : Option streamSyncRequest :=
  if state.lastSeq ≥ snap.lastSeq then none
  else some ⟨state.lastSeq + 1, snap.lastSeq⟩

theorem foldRemove_firstSeq (l : List Nat) (ls : Nat) (st : StoreM) :
    (l.foldl (fun st d => if d ≤ ls then st.removeMsg d else st) st).firstSeq =
      st.firstSeq := by
  induction l generalizing st with
  | nil => rfl
  | cons a t ih =>
      simp only [List.foldl_cons]
      rw [ih]
      by_cases h : a ≤ ls <;> simp [h, StoreM.removeMsg]

theorem foldRemove_lastSeq (l : List Nat) (ls : Nat) (st : StoreM) :
    (l.foldl (fun st d => if d ≤ ls then st.removeMsg d else st) st).lastSeq =
      st.lastSeq := by
  induction l generalizing st with
  | nil => rfl
  | cons a t ih =>
      simp only [List.foldl_cons]
      rw [ih]
      by_cases h : a ≤ ls <;> simp [h, StoreM.removeMsg]

theorem foldRemove_msgs_subset (l : List Nat) (ls : Nat) (st : StoreM) (q : Nat)
    (hq : q ∈ (l.foldl (fun st d => if d ≤ ls then st.removeMsg d else st) st).msgs) :
    q ∈ st.msgs := by
  induction l generalizing st with
  | nil => exact hq
  | cons a t ih =>
      simp only [List.foldl_cons] at hq
      have := ih _ hq
      by_cases h : a ≤ ls
      · rw [if_pos h] at this
        exact List.mem_of_mem_filter this
      · rwa [if_neg h] at this

theorem foldRemove_removes (l : List Nat) (ls : Nat) (st : StoreM) (d : Nat)
    (hd : d ∈ l) (hle : d ≤ ls) :
    d ∉ (l.foldl (fun st d => if d ≤ ls then st.removeMsg d else st) st).msgs := by
  induction l generalizing st with
  | nil => cases hd
  | cons a t ih =>
      simp only [List.foldl_cons]
      rcases List.mem_cons.mp hd with rfl | hmem
      · rw [if_pos hle]
        intro hcon
        have := foldRemove_msgs_subset t ls _ d hcon
        simp [StoreM.removeMsg, List.mem_filter] at this
      · exact ih _ hmem

/-- Claim C7: on receipt of a stream snapshot the follower compacts so its
`FirstSeq` rises to `snap.FirstSeq` exactly when the latter is greater, every
tombstoned sequence `≤` the local `LastSeq` is removed from the store, and a
sync request is produced exactly when local `LastSeq < snap.LastSeq`, asking
for `{FirstSeq: localLast+1, LastSeq: snap.LastSeq}`. -/
theorem C7_snapshot_reconciliation (store : StoreM) (snap : StreamStateM) :
    ((processSnapshotDeletes store snap).firstSeq =
      if store.firstSeq < snap.firstSeq then snap.firstSeq else store.firstSeq) ∧
    (store.firstSeq < snap.firstSeq →
      ∀ q ∈ (processSnapshotDeletes store snap).msgs, snap.firstSeq ≤ q) ∧
    (∀ d ∈ snap.deleted, d ≤ (processSnapshotDeletes store snap).lastSeq →
      d ∉ (processSnapshotDeletes store snap).msgs) ∧
    (calculateSyncRequest (processSnapshotDeletes store snap).state snap =
      if (processSnapshotDeletes store snap).lastSeq < snap.lastSeq
      then some ⟨(processSnapshotDeletes store snap).lastSeq + 1, snap.lastSeq⟩
      else none) := by
  have hfold_first := foldRemove_firstSeq snap.deleted
  have hfold_last := foldRemove_lastSeq snap.deleted
  refine ⟨?_, ?_, ?_, ?_⟩
  · by_cases h : store.firstSeq < snap.firstSeq
    · simp only [processSnapshotDeletes, gt_iff_lt, if_pos h, hfold_first,
        StoreM.compact]
    · simp only [processSnapshotDeletes, gt_iff_lt, if_neg h, hfold_first]
  · intro h q hq
    simp only [processSnapshotDeletes, gt_iff_lt, if_pos h] at hq
    have := foldRemove_msgs_subset _ _ _ _ hq
    simp only [StoreM.compact, List.mem_filter] at this
    exact of_decide_eq_true this.2
  · intro d hd hle
    simp only [processSnapshotDeletes] at hle ⊢
    rw [hfold_last] at hle
    exact foldRemove_removes _ _ _ _ hd hle
  · simp only [calculateSyncRequest, StoreM.state, ge_iff_le]
    by_cases h : (processSnapshotDeletes store snap).lastSeq < snap.lastSeq
    · rw [if_neg (by omega), if_pos h]
    · rw [if_pos (by omega), if_neg h]

/-- Witness for C7 at a concrete store and snapshot: sequence 3 is tombstoned
and removed; the sync request asks for `(5, 9)`. -/
theorem C7_snapshot_reconciliation_witness :
    (3 ∈ ({ firstSeq := 2, lastSeq := 9, deleted := [3] } : StreamStateM).deleted) ∧
    3 ∉ (processSnapshotDeletes ⟨[1, 2, 3, 4], 1, 4⟩
      { firstSeq := 2, lastSeq := 9, deleted := [3] }).msgs ∧
    calculateSyncRequest (processSnapshotDeletes ⟨[1, 2, 3, 4], 1, 4⟩
      { firstSeq := 2, lastSeq := 9, deleted := [3] }).state
      { firstSeq := 2, lastSeq := 9, deleted := [3] } = some ⟨5, 9⟩ := by
  have h := C7_snapshot_reconciliation ⟨[1, 2, 3, 4], 1, 4⟩
    { firstSeq := 2, lastSeq := 9, deleted := [3] }
  exact ⟨by decide, h.2.2.1 3 (by decide) (by decide), by rw [h.2.2.2]; decide⟩

/-! ## Clustered inbound publish (leader proposal path) -/

/-- The per-stream runtime fields read and written by
`processClusteredInboundMsg`: the last applied sequence `lseq`, the next
proposed sequence `nlseq`, the `NoAck` config flag and the leader flag. -/
structure StreamClusterState where
  lseq : Nat
  nlseq : Nat
  noAck : Bool
  leader : Bool
deriving DecidableEq

/-- Observable outcome of `processClusteredInboundMsg`: updated state, the
proposed entry bytes, whether a 503 error response was prepared, and whether
the call returns an error. -/
structure InboundMsgResult where
  state : StreamClusterState
  proposal : Bytes
  response503 : Bool
  isErr : Bool
deriving DecidableEq

/-- Model of `processClusteredInboundMsg`: snap `nlseq` up to `lseq` if it
fell behind, propose a `STREAM_MSG` entry carrying the snapped `nlseq` and the
timestamp, then bump `nlseq` on propose success or prepare a 503 (when the
client can be responded to) on failure.  The consensus `Propose` outcome is
the collaborator input `proposeOk`; `ts` stands for `time.Now().UnixNano()`. -/
def processClusteredInboundMsg (st : StreamClusterState) (subject reply hdr msg : Bytes)
    (ts : Int) (proposeOk : Bool) : InboundMsgResult :=
  let canRespond := !st.noAck && decide (0 < reply.length) && st.leader
  let nlseq1 := if st.nlseq < st.lseq then st.lseq else st.nlseq
  let proposal := encodeStreamMsg subject reply hdr msg nlseq1 ts
  if proposeOk then
    ⟨{ st with nlseq := nlseq1 + 1 }, proposal, false, false⟩
  else
    ⟨{ st with nlseq := nlseq1 }, proposal, canRespond, true⟩

/-- Claim C3, counterexample: with `lseq = 5`, `nlseq = 3`, an empty reply
subject and a failing propose, the call returns an error and `nlseq` is the
snapped value, but no 503 response is prepared (`canRespond` is false because
the reply subject is empty) — contradicting the claim's unconditional
"with a 503 error response prepared". -/
theorem C3_counterexample_no_503_without_reply :
    (processClusteredInboundMsg ⟨5, 3, false, true⟩ [1] [] [] [] 0 false).isErr = true ∧
    (processClusteredInboundMsg ⟨5, 3, false, true⟩ [1] [] [] [] 0 false).state.nlseq = 5 ∧
    (processClusteredInboundMsg ⟨5, 3, false, true⟩ [1] [] [] [] 0 false).response503 =
      false := by decide

/-- Claim C3 (amended): `nlseq` is snapped up to `lseq` when behind; the
proposed `STREAM_MSG` carries the snapped value; on propose success `nlseq`
becomes snapped+1, on failure it stays at the snapped value and a 503 response
is prepared exactly when acks are enabled, a reply subject is present and this
node is the stream leader; `nlseq ≥ lseq` holds on return. -/
theorem C3_inbound_msg_sequencing (st : StreamClusterState)
    (subject reply hdr msg : Bytes) (ts : Int) (ok : Bool) :
    (processClusteredInboundMsg st subject reply hdr msg ts ok).proposal =
      encodeStreamMsg subject reply hdr msg (max st.lseq st.nlseq) ts ∧
    (ok = true →
      (processClusteredInboundMsg st subject reply hdr msg ts ok).state.nlseq =
        max st.lseq st.nlseq + 1 ∧
      (processClusteredInboundMsg st subject reply hdr msg ts ok).response503 = false ∧
      (processClusteredInboundMsg st subject reply hdr msg ts ok).isErr = false) ∧
    (ok = false →
      (processClusteredInboundMsg st subject reply hdr msg ts ok).state.nlseq =
        max st.lseq st.nlseq ∧
      (processClusteredInboundMsg st subject reply hdr msg ts ok).isErr = true ∧
      (processClusteredInboundMsg st subject reply hdr msg ts ok).response503 =
        (!st.noAck && decide (0 < reply.length) && st.leader)) ∧
    st.lseq ≤ (processClusteredInboundMsg st subject reply hdr msg ts ok).state.nlseq ∧
    (processClusteredInboundMsg st subject reply hdr msg ts ok).state.lseq = st.lseq := by
  have hsnap : (if st.nlseq < st.lseq then st.lseq else st.nlseq) = max st.lseq st.nlseq := by
    by_cases h : st.nlseq < st.lseq <;> simp [h] <;> omega
  cases ok
  case false =>
    refine ⟨?_, ?_, ?_, ?_, ?_⟩
    · simp [processClusteredInboundMsg, hsnap]
    · intro h; cases h
    · intro h
      refine ⟨?_, ?_, ?_⟩ <;> simp [processClusteredInboundMsg, hsnap]
    · simp [processClusteredInboundMsg, hsnap]
    · simp [processClusteredInboundMsg, hsnap]
  case true =>
    refine ⟨?_, ?_, ?_, ?_, ?_⟩
    · simp [processClusteredInboundMsg, hsnap]
    · intro h
      refine ⟨?_, ?_, ?_⟩ <;> simp [processClusteredInboundMsg, hsnap]
    · intro h; cases h
    · simp [processClusteredInboundMsg, hsnap]
      omega
    · simp [processClusteredInboundMsg, hsnap]

/-- Witness for C3 at a concrete input: a successful propose bumps `nlseq`
from the snapped value 5 to 6. -/
theorem C3_inbound_msg_sequencing_witness :
    (processClusteredInboundMsg ⟨5, 3, false, true⟩ [1] [2] [] [] 0 true).state.nlseq = 6 := by
  have h := C3_inbound_msg_sequencing ⟨5, 3, false, true⟩ [1] [2] [] [] 0 true
  have := (h.2.1 rfl).1
  simpa using this

/-! ## Placement planner -/

/-- A meta peer as reported by the consensus node's `Peers()`; only the ID is
used by `selectPeerGroup`. -/
structure PeerM where
  id : String
deriving DecidableEq

/-- Model of `selectPeerGroup`: keep the peers that are self or have a live
route (`s.getRouteByHash` is the collaborator predicate `routeOK`), give up
with an empty result when fewer than `r` remain, otherwise return the first
`r` of the randomly shuffled list (the shuffle is the collaborator `shuffle`,
an arbitrary permutation). -/
def selectPeerGroup (r : Nat) (ourID : String) (peers : List PeerM)
    (routeOK : String → Bool) (shuffle : List String → List String) : List String :=
  let nodes := (peers.filter (fun p => p.id == ourID || routeOK p.id)).map PeerM.id
  if nodes.length < r then [] else (shuffle nodes).take r

/-- Claim C8: for `r ≥ 1`, `selectPeerGroup` returns either exactly `r`
pairwise-distinct peer IDs drawn from the reachable meta peers (self always
counting as reachable), or the empty result when fewer than `r` peers are
reachable. -/
theorem C8_selectPeerGroup_spec (r : Nat) (ourID : String) (peers : List PeerM)
    (routeOK : String → Bool) (shuffle : List String → List String)
    (_hr : 1 ≤ r) (hperm : ∀ l, (shuffle l).Perm l)
    (hnodup : (peers.map PeerM.id).Nodup) :
    (((peers.filter (fun p => p.id == ourID || routeOK p.id)).map PeerM.id).length < r →
      selectPeerGroup r ourID peers routeOK shuffle = []) ∧
    (r ≤ ((peers.filter (fun p => p.id == ourID || routeOK p.id)).map PeerM.id).length →
      (selectPeerGroup r ourID peers routeOK shuffle).length = r ∧
      (selectPeerGroup r ourID peers routeOK shuffle).Nodup ∧
      ∀ x ∈ selectPeerGroup r ourID peers routeOK shuffle,
        x ∈ (peers.filter (fun p => p.id == ourID || routeOK p.id)).map PeerM.id) := by
  constructor
  · intro h
    simp only [selectPeerGroup, if_pos h]
  · intro h
    have hnot : ¬(((peers.filter (fun p => p.id == ourID || routeOK p.id)).map
        PeerM.id).length < r) := by omega
    have hpermN := hperm ((peers.filter (fun p => p.id == ourID || routeOK p.id)).map
      PeerM.id)
    refine ⟨?_, ?_, ?_⟩
    · simp only [selectPeerGroup, if_neg hnot, List.length_take, hpermN.length_eq]
      omega
    · simp only [selectPeerGroup, if_neg hnot]
      refine List.Nodup.sublist (List.take_sublist _ _) ?_
      exact hpermN.nodup_iff.mpr
        (List.Nodup.sublist (List.Sublist.map _ (List.filter_sublist _)) hnodup)
    · intro x hx
      simp only [selectPeerGroup, if_neg hnot] at hx
      exact hpermN.mem_iff.mp (List.mem_of_mem_take hx)

/-- Witness for C8 at a concrete input: two reachable peers, `r = 2`, identity
shuffle — the selection has length 2. -/
theorem C8_selectPeerGroup_spec_witness :
    (selectPeerGroup 2 "a" [⟨"a"⟩, ⟨"b"⟩] (fun _ => true) id).length = 2 := by
  have h := C8_selectPeerGroup_spec 2 "a" [⟨"a"⟩, ⟨"b"⟩] (fun _ => true) id
    (by norm_num) (fun l => List.Perm.refl l) (by decide)
  exact (h.2 (by decide)).1

/-! ## Meta controller: the assignment map and its operations -/

/-- Insert-or-replace into an association list; Go's `m[k] = v`. -/
def alPut {V : Type} : List (String × V) → String → V → List (String × V)
  | [], k, v => [(k, v)]
  | (k', v') :: t, k, v =>
      if k' == k then (k, v) :: t else (k', v') :: alPut t k v

/-- Delete from an association list; Go's `delete(m, k)`. -/
def alDel {V : Type} (m : List (String × V)) (k : String) : List (String × V) :=
  m.filter (fun e => e.1 != k)

/-- The raft group fields used by the assignment logic: peer IDs and the
node's reported leadership (`rg.node.Leader()`). -/
structure raftGroupM where
  name : String
  peers : List String
  nodeLeader : Bool
deriving DecidableEq

/-- A consumer assignment: the fields the meta map logic reads
(`ca.Client.Account`, `ca.Name`, `ca.Stream`, `ca.Group`). -/
structure consumerAssignmentM where
  account : String
  name : String
  stream : String
  group : raftGroupM
deriving DecidableEq

/-- A stream assignment: the fields the meta map logic reads
(`sa.Client.Account`, `sa.Config.Name`, `sa.Sync`, `sa.Group`) plus the
internal `consumers` map. -/
structure streamAssignmentM where
  account : String
  name : String
  sync : String
  group : raftGroupM
  consumers : List (String × consumerAssignmentM)
deriving DecidableEq

/-- The meta assignment map `account → stream name → SA` (`cc.streams`). -/
abbrev MetaMap := List (String × List (String × streamAssignmentM))

/-- Model of `jetStream.streamAssignment`. -/
def streamAssignment (m : MetaMap) (account stream : String) :
    Option streamAssignmentM :=
  match m.lookup account with
  | some as => as.lookup stream
  | none => none

/-- Model of `processStreamAssignment`: return unchanged when the account
does not resolve or the (account, stream) entry already exists; otherwise
insert the SA.  (The member-only stream creation path does not touch the
assignment map.) -/
def processStreamAssignment (accounts : List String) (m : MetaMap)
    (sa : streamAssignmentM) : MetaMap :=
  if accounts.contains sa.account then
    match m.lookup sa.account with
    | some as =>
        if (as.lookup sa.name).isSome then m
        else alPut m sa.account (alPut as sa.name sa)
    | none => alPut m sa.account [(sa.name, sa)]
  else m

/-- Model of `processStreamRemoval`'s map mutation: delete the entry when
present, pruning an account whose stream map becomes empty. -/
def processStreamRemoval (m : MetaMap) (sa : streamAssignmentM) : MetaMap :=
  match m.lookup sa.account with
  | some as =>
      if (as.lookup sa.name).isSome then
        let as1 := alDel as sa.name
        if as1.isEmpty then alDel m sa.account else alPut m sa.account as1
      else m
  | none => m

/-- Model of `processConsumerAssignment`'s map mutation: locate the parent SA
(drop the CA when it is missing) and store the CA under its name, replacing
any existing entry. -/
def processConsumerAssignment (m : MetaMap) (ca : consumerAssignmentM) : MetaMap :=
  match m.lookup ca.account with
  | some as =>
      match as.lookup ca.stream with
      | some sa =>
          alPut m ca.account (alPut as ca.stream
            { sa with consumers := alPut sa.consumers ca.name ca })
      | none => m
  | none => m

/-- Model of `processConsumerRemoval`'s map mutation: delete the CA from its
parent SA's consumer map when the parent exists. -/
def processConsumerRemoval (m : MetaMap) (ca : consumerAssignmentM) : MetaMap :=
  match m.lookup ca.account with
  | some as =>
      match as.lookup ca.stream with
      | some sa =>
          alPut m ca.account (alPut as ca.stream
            { sa with consumers := alDel sa.consumers ca.name })
      | none => m
  | none => m

/-- A decoded snapshot element (`writeableStreamAssignment`): client account,
stream config name, sync subject, group and the consumer list. -/
structure writeableStreamAssignmentM where
  account : String
  name : String
  sync : String
  group : raftGroupM
  consumers : List consumerAssignmentM
deriving DecidableEq

/-- The map-building loop at the top of `applyMetaSnapshot`: fold the decoded
list into a fresh `account → stream → SA` map, turning each consumer list
into the internal consumer map. -/
def buildStreams (wsas : List writeableStreamAssignmentM) : MetaMap :=
  wsas.foldl (fun m wsa =>
    let as := (m.lookup wsa.account).getD []
    let sa : streamAssignmentM :=
      { account := wsa.account, name := wsa.name, sync := wsa.sync,
        group := wsa.group,
        consumers := wsa.consumers.foldl (fun cs ca => alPut cs ca.name ca) [] }
    alPut m wsa.account (alPut as wsa.name sa)) []

/-- Model of `applyMetaSnapshot` after the blob has been decompressed and
decoded: build the new map, diff the old map against it into `saDel`, `saChk`
(collecting the new SA) and `saAdd`, derive `caDel`/`caAdd` for the checked
streams by ranging over the OLD SA's consumer map exactly as the code does,
then apply removals first and adds after. -/
def applyMetaSnapshot (accounts : List String) (m : MetaMap)
    (wsas : List writeableStreamAssignmentM) : MetaMap :=
  let streams := buildStreams wsas
  let saDel : List streamAssignmentM :=
    (m.map (fun e => (e.2.filter (fun se =>
      (((streams.lookup e.1).getD []).lookup se.1).isNone)).map (fun se => se.2))).flatten
  let saChk : List streamAssignmentM :=
    (m.map (fun e => e.2.filterMap (fun se =>
      ((streams.lookup e.1).getD []).lookup se.1))).flatten
  let saAdd : List streamAssignmentM :=
    (streams.map (fun e => (e.2.filter (fun se =>
      (((m.lookup e.1).getD []).lookup se.1).isNone)).map (fun se => se.2))).flatten
  let caDel : List consumerAssignmentM :=
    (saChk.map (fun sa =>
      match streamAssignment m sa.account sa.name with
      | some osa => (osa.consumers.filter (fun ce =>
          (sa.consumers.lookup ce.1).isNone)).map (fun ce => ce.2)
      | none => [])).flatten
  let caAdd : List consumerAssignmentM :=
    (saChk.map (fun sa =>
      match streamAssignment m sa.account sa.name with
      | some osa => (osa.consumers.filter (fun ce =>
          (sa.consumers.lookup ce.1).isSome)).map (fun ce => ce.2)
      | none => [])).flatten
  let m1 := saDel.foldl processStreamRemoval m
  let m2 := saAdd.foldl (fun mm sa =>
    (sa.consumers.map (fun ce => ce.2)).foldl processConsumerAssignment
      (processStreamAssignment accounts mm sa)) m1
  let m3 := caDel.foldl processConsumerRemoval m2
  caAdd.foldl processConsumerAssignment m3

/-- The consumer assignment used in the C1 divergence input. -/
def caC1 : consumerAssignmentM := ⟨"A", "C", "S", ⟨"g2", ["n1"], false⟩⟩

/-- The pre-existing stream assignment (no consumers) in the C1 input. -/
def oldSA1 : streamAssignmentM := ⟨"A", "S", "sync", ⟨"g1", ["n1"], false⟩, []⟩

/-- The snapshot element for the same stream carrying consumer `C`. -/
def newWSA1 : writeableStreamAssignmentM :=
  ⟨"A", "S", "sync", ⟨"g1", ["n1"], false⟩, [caC1]⟩

/-- Claim C1, divergence (code bug): snapshot reconciliation never adds a
consumer that is present in the snapshot but absent locally when its stream
already exists: the `caAdd` pass ranges over the OLD SA's consumers only.
Here the local map has stream `S` with no consumers and the snapshot adds
consumer `C` under `S`; after `applyMetaSnapshot` the consumer is still
missing and the resulting map differs from the decoded one, contradicting the
spec's structural-equality invariant (§8) and its `ca_add` diff rule. -/
theorem C1_snapshot_consumer_not_added :
    (streamAssignment (buildStreams [newWSA1]) "A" "S").map
      (fun sa => sa.consumers.lookup "C") = some (some caC1) ∧
    (streamAssignment (applyMetaSnapshot ["A"] [("A", [("S", oldSA1)])] [newWSA1])
      "A" "S").map (fun sa => sa.consumers.lookup "C") = some none ∧
    applyMetaSnapshot ["A"] [("A", [("S", oldSA1)])] [newWSA1] ≠
      buildStreams [newWSA1] := by decide

theorem lookup_alPut_self {V : Type} (m : List (String × V)) (k : String) (v : V) :
    (alPut m k v).lookup k = some v := by
  induction m with
  | nil => simp [alPut, List.lookup]
  | cons e t ih =>
      by_cases h : e.1 == k
      · simp [alPut, h, List.lookup]
      · obtain ⟨k', v'⟩ := e
        simp only [alPut] at *
        rw [if_neg (by simpa using h)]
        simp only [List.lookup]
        rw [show (k == k') = false from by
          simp at h ⊢; exact fun hc => h hc.symm]
        exact ih

/-- Claim C9: when an SA for the same (account, stream) is already present,
`processStreamAssignment` leaves the map unchanged (no overwrite, no
removal); when none is present and the account resolves, the SA is
inserted. -/
theorem C9_processStreamAssignment_idempotent (accounts : List String)
    (m : MetaMap) (sa : streamAssignmentM) :
    ((streamAssignment m sa.account sa.name).isSome →
      processStreamAssignment accounts m sa = m) ∧
    (streamAssignment m sa.account sa.name = none →
      accounts.contains sa.account = true →
      streamAssignment (processStreamAssignment accounts m sa) sa.account sa.name =
        some sa) := by
  constructor
  · intro hsome
    unfold processStreamAssignment
    by_cases hacc : accounts.contains sa.account
    · rw [if_pos hacc]
      cases hm : m.lookup sa.account with
      | none =>
          exfalso
          have hred : streamAssignment m sa.account sa.name = none := by
            unfold streamAssignment; rw [hm]
          rw [hred] at hsome
          simp at hsome
      | some as =>
          have hred : streamAssignment m sa.account sa.name = as.lookup sa.name := by
            unfold streamAssignment; rw [hm]
          rw [hred] at hsome
          show (if (as.lookup sa.name).isSome then m
                else alPut m sa.account (alPut as sa.name sa)) = m
          rw [if_pos hsome]
    · rw [if_neg hacc]
  · intro hnone hacc
    unfold processStreamAssignment
    rw [if_pos hacc]
    cases hm : m.lookup sa.account with
    | none =>
        show streamAssignment (alPut m sa.account [(sa.name, sa)])
          sa.account sa.name = some sa
        unfold streamAssignment
        rw [lookup_alPut_self]
        simp [List.lookup]
    | some as =>
        have hred : streamAssignment m sa.account sa.name = as.lookup sa.name := by
          unfold streamAssignment; rw [hm]
        rw [hred] at hnone
        show streamAssignment
          (if (as.lookup sa.name).isSome then m
           else alPut m sa.account (alPut as sa.name sa)) sa.account sa.name = some sa
        rw [if_neg (by simp [hnone])]
        unfold streamAssignment
        rw [lookup_alPut_self]
        exact lookup_alPut_self _ _ _

/-- Witness for C9 at concrete inputs: a second insertion for `("A", "S")` is
a no-op, and inserting into an empty map makes the SA retrievable. -/
theorem C9_processStreamAssignment_idempotent_witness :
    processStreamAssignment ["A"] [("A", [("S", oldSA1)])]
      { oldSA1 with sync := "other" } = [("A", [("S", oldSA1)])] ∧
    streamAssignment (processStreamAssignment ["A"] [] oldSA1) "A" "S" =
      some oldSA1 :=
  ⟨(C9_processStreamAssignment_idempotent ["A"] [("A", [("S", oldSA1)])]
      { oldSA1 with sync := "other" }).1 (by decide),
   (C9_processStreamAssignment_idempotent ["A"] [] oldSA1).2 (by decide) (by decide)⟩

/-! ## Meta entry application -/

/-- The decodable content of a meta entry payload, standing for the JSON
bytes: `json.Unmarshal` into the target type succeeds exactly when the
payload has that shape. -/
inductive MetaPayload where
  | saPayload (sa : streamAssignmentM)
  | caPayload (ca : consumerAssignmentM)
  | corrupt
deriving DecidableEq

/-- Model of `decodeStreamAssignment` (JSON unmarshal into an SA). -/
def decodeStreamAssignment : MetaPayload → Option streamAssignmentM
  | .saPayload sa => some sa
  | _ => none

/-- Model of `decodeConsumerAssignment` (JSON unmarshal into a CA). -/
def decodeConsumerAssignment : MetaPayload → Option consumerAssignmentM
  | .caPayload ca => some ca
  | _ => none

/-- A committed meta entry: a consensus-level snapshot, or a normal entry
whose first byte is the opcode and whose remainder is the payload. -/
inductive MetaEntry where
  | snapshotEntry (wsas : List writeableStreamAssignmentM)
  | normalEntry (op : Nat) (payload : MetaPayload)
deriving DecidableEq

/-- Outcome of `applyMetaEntries`: the final map, whether the loop panicked
(unknown op tag) and how many decode failures were logged. -/
structure MetaApplyResult where
  state : MetaMap
  panicked : Bool
  decodeFailures : Nat
deriving DecidableEq

def assignStreamOp : Nat := 0
def assignConsumerOp : Nat := 1
def removeStreamOp : Nat := 2
def removeConsumerOp : Nat := 3

/-- Model of `applyMetaEntries`: dispatch each entry on its opcode.  A decode
failure logs an error and RETURNS from the function, abandoning the remaining
entries of the batch; an unknown op tag panics. -/
def applyMetaEntries (accounts : List String) :
    MetaMap → List MetaEntry → MetaApplyResult
  | m, [] => ⟨m, false, 0⟩
  | m, .snapshotEntry wsas :: rest =>
      applyMetaEntries accounts (applyMetaSnapshot accounts m wsas) rest
  | m, .normalEntry op payload :: rest =>
      if op == assignStreamOp then
        match decodeStreamAssignment payload with
        | some sa =>
            applyMetaEntries accounts (processStreamAssignment accounts m sa) rest
        | none => ⟨m, false, 1⟩
      else if op == removeStreamOp then
        match decodeStreamAssignment payload with
        | some sa => applyMetaEntries accounts (processStreamRemoval m sa) rest
        | none => ⟨m, false, 1⟩
      else if op == assignConsumerOp then
        match decodeConsumerAssignment payload with
        | some ca => applyMetaEntries accounts (processConsumerAssignment m ca) rest
        | none => ⟨m, false, 1⟩
      else if op == removeConsumerOp then
        match decodeConsumerAssignment payload with
        | some ca => applyMetaEntries accounts (processConsumerRemoval m ca) rest
        | none => ⟨m, false, 1⟩
      else ⟨m, true, 0⟩

/-- Claim C4, counterexample: a batch whose first entry fails to decode and
whose second entry is a valid stream assignment leaves the map empty — the
decode failure abandons the whole remainder of the batch, not just the
failing entry (the valid entry applies fine when alone). -/
theorem C4_counterexample_batch_abandoned :
    (applyMetaEntries ["A"] []
      [.normalEntry assignStreamOp .corrupt,
       .normalEntry assignStreamOp (.saPayload oldSA1)]).state = [] ∧
    (applyMetaEntries ["A"] []
      [.normalEntry assignStreamOp (.saPayload oldSA1)]).state =
      [("A", [("S", oldSA1)])] ∧
    (applyMetaEntries ["A"] []
      [.normalEntry assignStreamOp .corrupt,
       .normalEntry assignStreamOp (.saPayload oldSA1)]).panicked = false := by decide

/-- Claim C4 (amended): when an entry's payload fails to decode, an error is
logged and the apply loop does not panic, but the failing entry and all
remaining entries of the batch are abandoned (the function returns early);
entries preceding the failure are still applied. -/
theorem C4_decode_failure_aborts_batch (accounts : List String) (m m' : MetaMap)
    (pre post : List MetaEntry) (op : Nat) (hop : op < 4)
    (hpre : applyMetaEntries accounts m pre = ⟨m', false, 0⟩) :
    applyMetaEntries accounts m (pre ++ MetaEntry.normalEntry op .corrupt :: post) =
      ⟨m', false, 1⟩ := by
  induction pre generalizing m with
  | nil =>
      have hm : m = m' := by
        simpa [applyMetaEntries, MetaApplyResult.mk.injEq] using hpre
      subst hm
      simp only [List.nil_append]
      interval_cases op <;> rfl
  | cons e t ih =>
      cases e with
      | snapshotEntry wsas =>
          simp only [applyMetaEntries] at hpre
          simpa only [List.cons_append, applyMetaEntries] using ih _ hpre
      | normalEntry op' payload =>
          simp only [List.cons_append, applyMetaEntries] at hpre ⊢
          by_cases h1 : (op' == assignStreamOp) = true
          · rw [if_pos h1] at hpre ⊢
            cases hd : decodeStreamAssignment payload with
            | some sa => rw [hd] at hpre; exact ih _ hpre
            | none => rw [hd] at hpre; simp at hpre
          · rw [if_neg h1] at hpre ⊢
            by_cases h2 : (op' == removeStreamOp) = true
            · rw [if_pos h2] at hpre ⊢
              cases hd : decodeStreamAssignment payload with
              | some sa => rw [hd] at hpre; exact ih _ hpre
              | none => rw [hd] at hpre; simp at hpre
            · rw [if_neg h2] at hpre ⊢
              by_cases h3 : (op' == assignConsumerOp) = true
              · rw [if_pos h3] at hpre ⊢
                cases hd : decodeConsumerAssignment payload with
                | some ca => rw [hd] at hpre; exact ih _ hpre
                | none => rw [hd] at hpre; simp at hpre
              · rw [if_neg h3] at hpre ⊢
                by_cases h4 : (op' == removeConsumerOp) = true
                · rw [if_pos h4] at hpre ⊢
                  cases hd : decodeConsumerAssignment payload with
                  | some ca => rw [hd] at hpre; exact ih _ hpre
                  | none => rw [hd] at hpre; simp at hpre
                · rw [if_neg h4] at hpre
                  simp at hpre

/-- Witness for C4 at a concrete batch: one good entry, then a corrupt one,
then another entry; the good prefix is applied, the rest abandoned. -/
theorem C4_decode_failure_aborts_batch_witness :
    applyMetaEntries ["A"] []
      ([MetaEntry.normalEntry assignStreamOp (.saPayload oldSA1)] ++
        MetaEntry.normalEntry assignConsumerOp .corrupt ::
          [MetaEntry.normalEntry removeStreamOp (.saPayload oldSA1)]) =
      ⟨[("A", [("S", oldSA1)])], false, 1⟩ :=
  C4_decode_failure_aborts_batch ["A"] [] [("A", [("S", oldSA1)])]
    [MetaEntry.normalEntry assignStreamOp (.saPayload oldSA1)]
    [MetaEntry.normalEntry removeStreamOp (.saPayload oldSA1)]
    assignConsumerOp (by decide) (by decide)

/-! ## Consumer leadership predicate -/

/-- Model of `isConsumerLeader` in clustered mode: look up the stream's SA
and scan ALL of its consumers: report leadership when our peer ID is in some
consumer group's peer list and that group is single-peer or its node reports
leadership.  The `consumer` argument is never read by the code. -/
def isConsumerLeader (m : MetaMap) (ourID account stream _consumer : String) : Bool :=
  match streamAssignment m account stream with
  | none => false
  | some sa =>
      sa.consumers.any (fun ce =>
        ce.2.group.peers.any (fun peer =>
          peer == ourID && (ce.2.group.peers.length == 1 || ce.2.group.nodeLeader)))

/-- Claim C10: `isConsumerLeader` is independent of the consumer argument,
and it is true exactly when this server is a peer of the raft group of some
consumer of that stream whose group is single-peer or whose node reports
leadership. -/
theorem C10_isConsumerLeader_consumer_independent (m : MetaMap)
    (ourID account stream c1 c2 : String) :
    isConsumerLeader m ourID account stream c1 =
      isConsumerLeader m ourID account stream c2 ∧
    (isConsumerLeader m ourID account stream c1 = true ↔
      ∃ sa, streamAssignment m account stream = some sa ∧
        ∃ ce ∈ sa.consumers, ourID ∈ ce.2.group.peers ∧
          (ce.2.group.peers.length = 1 ∨ ce.2.group.nodeLeader = true)) := by
  refine ⟨rfl, ?_⟩
  unfold isConsumerLeader
  cases h : streamAssignment m account stream with
  | none => simp
  | some sa =>
      simp only [Option.some.injEq, List.any_eq_true, Bool.and_eq_true,
        Bool.or_eq_true, beq_iff_eq]
      constructor
      · rintro ⟨ce, hce, peer, hpeer, rfl, hcond⟩
        exact ⟨sa, rfl, ce, hce, hpeer, by simpa using hcond⟩
      · rintro ⟨sa', hsa', ce, hce, hpeer, hcond⟩
        cases hsa'
        exact ⟨ce, hce, ourID, hpeer, rfl, by simpa using hcond⟩

/-! ## Catch-up sender (leader side) -/

/-- A message as the store's `LoadMsg` returns it: subject, headers, body and
timestamp. -/
structure StoredMsg where
  subj : Bytes
  hdr : Bytes
  msg : Bytes
  ts : Int
deriving DecidableEq

/-- The store collaborator's `LoadMsg`, with `none` modelling a load error
(`ErrStoreEOF` / `ErrStoreMsgNotFound`).  On error the code's local variables
keep their zero values and a frame is still sent (the skip/delete handling in
the error branch is an unfinished TODO in the source). -/
def loadOrZero (store : Nat → Option StoredMsg) (seq : Nat) : StoredMsg :=
  (store seq).getD ⟨[], [], [], 0⟩

/-- The `maxOut` flow-control ceiling: 48 MiB. -/
def maxOut : Int := 48 * 1024 * 1024

/-- The frame the catch-up sender emits for sequence `seq`: the same
`STREAM_MSG` encoding as the replicated log, with an empty reply subject and
`lseq = seq − 1`. -/
def catchupFrame (store : Nat → Option StoredMsg) (seq : Nat) : Bytes :=
  encodeStreamMsg (loadOrZero store seq).subj [] (loadOrZero store seq).hdr
    (loadOrZero store seq).msg (seq - 1) (loadOrZero store seq).ts

/-- One send record: the sequence, the frame bytes, and the value of the
in-flight byte counter `out` at the moment the send was issued. -/
structure CatchupSend where
  seq : Nat
  frame : Bytes
  outBefore : Int
deriving DecidableEq

/-- Model of `sendNextBatch`: `for ; seq < last && out <= maxOut; seq++`
loads the message, encodes it with `lseq = seq−1`, adds the frame size to
`out` and sends.  `fuel` bounds the iterations; every caller passes
`last - seq`, which the `seq < last` guard never exhausts. -/
def sendNextBatch (store : Nat → Option StoredMsg) (last : Nat) :
    Nat → Nat → Int → List CatchupSend × Nat × Int
  | 0, seq, out => ([], seq, out)
  | fuel + 1, seq, out =>
      if seq < last ∧ out ≤ maxOut then
        let em := catchupFrame store seq
        let rest := sendNextBatch store last fuel (seq + 1) (out + (em.length : Int))
        (⟨seq, em, out⟩ :: rest.1, rest.2)
      else ([], seq, out)

/-- Model of `runCatchup`'s send loop, abstracted over the ack schedule: one
initial batch from `(FirstSeq, 0)` (the preloaded `nextBatchC` token), then
for each element `a` of `acks` — the total payload bytes acknowledged before
the next `nextBatchC` wakeup — subtract it from `out` and run another batch.
The result is the full send trace with the final `(seq, out)`. -/
def runCatchup (store : Nat → Option StoredMsg) (first last : Nat)
    (acks : List Int) : List CatchupSend × Nat × Int :=
  let init := sendNextBatch store last (last - first) first 0
  acks.foldl (fun st a =>
    let next := sendNextBatch store last (last - st.2.1) st.2.1 (st.2.2 - a)
    (st.1 ++ next.1, next.2)) init

theorem sendNextBatch_spec (store : Nat → Option StoredMsg) (last : Nat) :
    ∀ (fuel seq : Nat) (out : Int),
      ((sendNextBatch store last fuel seq out).1.map (fun r => r.seq) =
        List.range' seq ((sendNextBatch store last fuel seq out).2.1 - seq)) ∧
      seq ≤ (sendNextBatch store last fuel seq out).2.1 ∧
      (seq ≤ last → (sendNextBatch store last fuel seq out).2.1 ≤ last) ∧
      (last ≤ seq → (sendNextBatch store last fuel seq out).2.1 = seq) ∧
      (∀ r ∈ (sendNextBatch store last fuel seq out).1,
        r.frame = catchupFrame store r.seq ∧ seq ≤ r.seq ∧ r.outBefore ≤ maxOut) := by
  intro fuel
  induction fuel with
  | zero =>
      intro seq out
      simp [sendNextBatch]
  | succ fuel ih =>
      intro seq out
      by_cases hc : seq < last ∧ out ≤ maxOut
      · simp only [sendNextBatch, if_pos hc]
        obtain ⟨h1, h2, h3, h4, h5⟩ :=
          ih (seq + 1) (out + ((catchupFrame store seq).length : Int))
        refine ⟨?_, by omega, fun _ => h3 (by omega), fun hls => absurd hc.1 (by omega), ?_⟩
        · simp only [List.map_cons, h1]
          rw [show (sendNextBatch store last fuel (seq + 1)
              (out + ((catchupFrame store seq).length : Int))).2.1 - seq =
              ((sendNextBatch store last fuel (seq + 1)
                (out + ((catchupFrame store seq).length : Int))).2.1 - (seq + 1)) + 1
            from by omega]
          rw [List.range'_succ]
        · intro r hr
          rcases List.mem_cons.mp hr with rfl | hr'
          · exact ⟨rfl, le_refl _, hc.2⟩
          · obtain ⟨hf, hs, ho⟩ := h5 r hr'
            exact ⟨hf, by omega, ho⟩
      · simp [sendNextBatch, if_neg hc]

theorem runCatchup_loop_spec (store : Nat → Option StoredMsg) (first last : Nat) :
    ∀ (acks : List Int) (sends : List CatchupSend) (seq : Nat) (out : Int),
      sends.map (fun r => r.seq) = List.range' first (seq - first) →
      first ≤ seq → seq ≤ max first last →
      (∀ r ∈ sends, r.frame = catchupFrame store r.seq ∧ first ≤ r.seq ∧
        r.outBefore ≤ maxOut) →
      ((acks.foldl (fun st a =>
          let next := sendNextBatch store last (last - st.2.1) st.2.1 (st.2.2 - a)
          (st.1 ++ next.1, next.2)) (sends, seq, out)).1.map (fun r => r.seq) =
        List.range' first ((acks.foldl (fun st a =>
          let next := sendNextBatch store last (last - st.2.1) st.2.1 (st.2.2 - a)
          (st.1 ++ next.1, next.2)) (sends, seq, out)).2.1 - first)) ∧
      first ≤ (acks.foldl (fun st a =>
          let next := sendNextBatch store last (last - st.2.1) st.2.1 (st.2.2 - a)
          (st.1 ++ next.1, next.2)) (sends, seq, out)).2.1 ∧
      (acks.foldl (fun st a =>
          let next := sendNextBatch store last (last - st.2.1) st.2.1 (st.2.2 - a)
          (st.1 ++ next.1, next.2)) (sends, seq, out)).2.1 ≤ max first last ∧
      (∀ r ∈ (acks.foldl (fun st a =>
          let next := sendNextBatch store last (last - st.2.1) st.2.1 (st.2.2 - a)
          (st.1 ++ next.1, next.2)) (sends, seq, out)).1,
        r.frame = catchupFrame store r.seq ∧ first ≤ r.seq ∧
        r.outBefore ≤ maxOut) := by
  intro acks
  induction acks with
  | nil =>
      intro sends seq out hmap hfs hmax hprops
      exact ⟨hmap, hfs, hmax, hprops⟩
  | cons a t ih =>
      intro sends seq out hmap hfs hmax hprops
      simp only [List.foldl_cons]
      obtain ⟨b1, b2, b3, b4, b5⟩ := sendNextBatch_spec store last (last - seq) seq (out - a)
      have hnew : first ≤ (sendNextBatch store last (last - seq) seq (out - a)).2.1 := by
        omega
      have hmax' : (sendNextBatch store last (last - seq) seq (out - a)).2.1 ≤
          max first last := by
        by_cases hsl : seq ≤ last
        · have := b3 hsl; omega
        · have := b4 (by omega); omega
      have hmap' : (sends ++
          (sendNextBatch store last (last - seq) seq (out - a)).1).map (fun r => r.seq) =
          List.range' first
            ((sendNextBatch store last (last - seq) seq (out - a)).2.1 - first) := by
        rw [List.map_append, hmap, b1]
        have hseq : first + (seq - first) = seq := by omega
        have happ := List.range'_append_1 first (seq - first)
          ((sendNextBatch store last (last - seq) seq (out - a)).2.1 - seq)
        rw [hseq] at happ
        rw [happ]
        congr 1
        omega
      have hprops' : ∀ r ∈ sends ++ (sendNextBatch store last (last - seq) seq (out - a)).1,
          r.frame = catchupFrame store r.seq ∧ first ≤ r.seq ∧ r.outBefore ≤ maxOut := by
        intro r hr
        rcases List.mem_append.mp hr with h | h
        · exact hprops r h
        · obtain ⟨hf, hs, ho⟩ := b5 r h
          exact ⟨hf, by omega, ho⟩
      exact ih (sends ++ (sendNextBatch store last (last - seq) seq (out - a)).1)
        (sendNextBatch store last (last - seq) seq (out - a)).2.1
        (sendNextBatch store last (last - seq) seq (out - a)).2.2
        hmap' hnew hmax' hprops'

/-- Claim C2: for a sync request `{FirstSeq, LastSeq}` (with `FirstSeq ≥ 1`,
as every request built by `calculateSyncRequest` is), a catch-up run that
completes (its final sequence reaches `LastSeq`) emits exactly the sequences
in `[FirstSeq, LastSeq)` in strictly ascending order; every send is framed
with the replicated-log `STREAM_MSG` encoding carrying `lseq = s − 1`, and
every send is issued only while the in-flight byte count is ≤ `maxOut`
(48 MiB) — so `out` can exceed `maxOut` by at most the one message just
sent. -/
theorem C2_runCatchup_spec (store : Nat → Option StoredMsg) (first last : Nat)
    (acks : List Int) (h1 : 1 ≤ first)
    (hdone : last ≤ (runCatchup store first last acks).2.1) :
    ((runCatchup store first last acks).1.map (fun r => r.seq) =
      List.range' first (last - first)) ∧
    (∀ r ∈ (runCatchup store first last acks).1,
      r.frame = encodeStreamMsg (loadOrZero store r.seq).subj []
        (loadOrZero store r.seq).hdr (loadOrZero store r.seq).msg (r.seq - 1)
        (loadOrZero store r.seq).ts ∧
      1 ≤ r.seq ∧ r.outBefore ≤ maxOut) := by
  obtain ⟨b1, b2, b3, b4, b5⟩ := sendNextBatch_spec store last (last - first) first 0
  have hinit_max : (sendNextBatch store last (last - first) first 0).2.1 ≤
      max first last := by
    by_cases hfl : first ≤ last
    · have := b3 hfl; omega
    · have := b4 (by omega); omega
  have hloop := runCatchup_loop_spec store first last acks
    (sendNextBatch store last (last - first) first 0).1
    (sendNextBatch store last (last - first) first 0).2.1
    (sendNextBatch store last (last - first) first 0).2.2
    (by simpa using b1) b2 hinit_max
    (fun r hr => (b5 r hr).imp_right (fun h => ⟨le_trans (by omega) h.1, h.2⟩))
  obtain ⟨l1, l2, l3, l4⟩ := hloop
  have hrun : runCatchup store first last acks =
      acks.foldl (fun st a =>
        let next := sendNextBatch store last (last - st.2.1) st.2.1 (st.2.2 - a)
        (st.1 ++ next.1, next.2))
        ((sendNextBatch store last (last - first) first 0).1,
         (sendNextBatch store last (last - first) first 0).2.1,
         (sendNextBatch store last (last - first) first 0).2.2) := rfl
  rw [hrun] at hdone ⊢
  have hfinal : (acks.foldl (fun st a =>
      let next := sendNextBatch store last (last - st.2.1) st.2.1 (st.2.2 - a)
      (st.1 ++ next.1, next.2))
      ((sendNextBatch store last (last - first) first 0).1,
       (sendNextBatch store last (last - first) first 0).2.1,
       (sendNextBatch store last (last - first) first 0).2.2)).2.1 - first =
      last - first := by omega
  constructor
  · rw [l1, hfinal]
  · intro r hr
    obtain ⟨hf, hs, ho⟩ := l4 r hr
    exact ⟨by rw [hf]; rfl, by omega, ho⟩

/-- Witness for C2 at a concrete run: two sequences `[1, 3)`, empty store,
no acks needed; the trace is exactly sequences 1 and 2. -/
theorem C2_runCatchup_spec_witness :
    (runCatchup (fun _ => none) 1 3 []).1.map (fun r => r.seq) = List.range' 1 2 :=
  (C2_runCatchup_spec (fun _ => none) 1 3 [] (by norm_num) (by decide)).1

end NatsJSC
